import Mathlib

/-!
Shallow embedding of the mytardis squashfs storage module
(`tardis/tardis_portal/storage/squashfs.py`) and the GraphQL experiment
mutation (`tardis/tardis_portal/graphql/experiment.py`), together with
theorems settling the specification claims about them.

Conventions of the embedding:
* Python strings are Lean `String`s; the string operations the source
  relies on (`split`, `replace`, `startswith`, `endswith`, `find`) are
  implemented over `String.data` so that they compute by kernel reduction.
* Django querysets over the catalog become list filters over an explicit
  `Catalog` state; saving a new row appends to the corresponding list.
* Raising an exception becomes an `Except`/`Option` error value; a
  generator becomes the list of its yields (plus explicit events for
  callback invocations).
-/

/-! ### String helpers (Python semantics, kernel-computable) -/

/-- Python `str.split(sep)` for a one-character separator: keeps empty
segments and always returns at least one (possibly empty) segment. -/
def splitChar (sep : Char) : List Char → List (List Char)
  | [] => [[]]
  | c :: rest =>
    match splitChar sep rest with
    | [] => [[c]]
    | seg :: segs =>
      if c = sep then [] :: seg :: segs else (c :: seg) :: segs

/-- Python `str.startswith(".")`: tests the first character. -/
def startsDot (s : String) : Bool :=
  match s.data with
  | [] => false
  | c :: _ => c == '.'

/-- Python `uri.endswith(p)` (the Django `uri__endswith` lookup). -/
def strEndsWith (u p : String) : Bool :=
  decide (p.data <:+ u.data)

/-- Python `hay.find(needle) > -1`: substring containment. -/
def strContains (hay needle : String) : Bool :=
  decide (needle.data <:+: hay.data)

/-- A bounded-prefix test: is `pat` an initial run of `l`? -/
def isPre : List Char → List Char → Bool
  | [], _ => true
  | _ :: _, [] => false
  | p :: ps, c :: cs => p == c && isPre ps cs

/-- Python `str.replace(pat, rep)`: replace every non-overlapping
occurrence, scanning left to right.  The fuel argument (set to the length
of the scanned string) only serves termination; every step consumes at
least one character, so the fuel never runs out for a non-empty `pat`. -/
def replaceAllGo (pat rep : List Char) : Nat → List Char → List Char
  | _, [] => []
  | 0, c :: rest => c :: rest
  | fuel + 1, c :: rest =>
    if isPre pat (c :: rest) then
      rep ++ replaceAllGo pat rep fuel ((c :: rest).drop pat.length)
    else
      c :: replaceAllGo pat rep fuel rest

/-- Python `str.replace(pat, rep)`. -/
def replaceAll (pat rep l : List Char) : List Char :=
  replaceAllGo pat rep l.length l

/-- Python `os.path.join(a, b)` for the paths this module produces: an
absolute `b` overrides `a`, an empty `a` is dropped, and otherwise the
parts are glued with a single separator (no caller passes an `a` that
already ends in a slash). -/
def pjoin (a b : String) : String :=
  if b.data.head? = some '/' then b
  else if a = "" then b
  else a ++ "/" ++ b

/-! ### PathGuard: `SquashFSStorage.path` (claim C4)

The filesystem is abstracted as segment lists: an absolute path is the
list of its non-empty, non-`.` components under the root. -/

/-- The meaningful segments of a POSIX path string: `os.path.normpath`
ignores empty segments (from repeated slashes) and `.` segments. -/
def pathSegs (s : String) : List String :=
  ((splitChar '/' s.data).map (fun l => String.mk l)).filter
    (fun seg => !(seg == "" || seg == "."))

/-- One step of `os.path.normpath` on an absolute path: `..` discards the
previous segment (and is dropped at the root, as `normpath("/..") = "/"`),
every other segment is kept. -/
def normStep (acc : List String) (seg : String) : List String :=
  if seg = ".." then acc.dropLast else acc ++ [seg]

/-- Embeds `os.path.normpath` on an absolute path, acting on its segment list. -/
def normAbs (l : List String) : List String :=
  l.foldl normStep []

/-- The absolute path that `os.path.abspath(os.path.join(base, name))`
resolves to, for an absolute `base` given as its segment list. -/
def resolveName (base : List String) (name : String) : List String :=
  if name.data.head? = some '/' then normAbs (pathSegs name)
  else normAbs (base ++ pathSegs name)

/-- Modelled from the external helper `django.utils._os.safe_join` (a
Django utility, not part of this repository): join `base` and `name`,
take the absolute normalised result, and reject it with `ValueError`
unless it equals the base or lies under it (`final.startswith(base +
sep)`); on segment lists both accepted cases are exactly `base <+:
final`.  `none` models the raised `ValueError`. -/
def safe_join (base : List String) (name : String) : Option (List String) :=
  let final := resolveName base name
  if base <+: final then some final else none

/-- Embeds `SquashFSStorage.path`: `safe_join` under the storage location, with
`ValueError` re-raised as `SuspiciousOperation` (here `.error ()`), then
`os.path.normpath` applied to the accepted result. -/
def SquashFSStorage.path (base : List String) (name : String) :
    Except Unit (List String) :=
  match safe_join base name with
  | none => .error ()
  | some p => .ok (normAbs p)

theorem normAbs_go_not_dotdot (l : List String) (acc : List String)
    (hacc : ".." ∉ acc) : ".." ∉ l.foldl normStep acc := by
  induction l generalizing acc with
  | nil => exact hacc
  | cons a t ih =>
    refine ih (normStep acc a) ?_
    unfold normStep
    by_cases h : a = ".."
    · simp only [h, if_pos rfl]
      intro hmem
      exact hacc (List.dropLast_subset acc hmem)
    · simp only [if_neg h, List.mem_append, List.mem_singleton]
      rintro (h1 | h2)
      · exact hacc h1
      · exact h (h2.symm)

theorem normAbs_not_dotdot (l : List String) : ".." ∉ normAbs l :=
  normAbs_go_not_dotdot l [] (by simp)

theorem normAbs_go_no_dotdot_eq (l acc : List String) (h : ".." ∉ l) :
    l.foldl normStep acc = acc ++ l := by
  induction l generalizing acc with
  | nil => simp
  | cons a t ih =>
    have ha : a ≠ ".." := fun hc => h (hc ▸ List.mem_cons_self a t)
    have ht : ".." ∉ t := fun hc => h (List.mem_cons_of_mem a hc)
    simp only [List.foldl_cons, normStep, if_neg ha]
    rw [ih (acc ++ [a]) ht, List.append_assoc]
    rfl

theorem normAbs_idem (l : List String) : normAbs (normAbs l) = normAbs l := by
  have h := normAbs_not_dotdot l
  unfold normAbs
  rw [normAbs_go_no_dotdot_eq (l.foldl normStep []) [] h, List.nil_append]

/-- C4: for every relative name whose normalised join with the mount root
escapes the root, `SquashFSStorage.path` raises the traversal error
(`SuspiciousOperation`, from safe_join's `ValueError`) instead of
returning a path; for every name whose join stays within the root it
returns the resolved path, which is normalised (free of `..` segments,
stable under `normpath`) and has the root as a prefix. -/
theorem squashfs_path_containment (base : List String) (name : String) :
    (SquashFSStorage.path base name = .error () ↔
      ¬ base <+: resolveName base name) ∧
    (∀ p, SquashFSStorage.path base name = .ok p →
      p = resolveName base name ∧ base <+: p ∧ ".." ∉ p ∧ normAbs p = p) := by
  unfold SquashFSStorage.path safe_join
  by_cases h : base <+: resolveName base name
  · simp only [if_pos h]
    constructor
    · constructor
      · intro hcontra
        exact absurd hcontra (by simp)
      · intro hcontra
        exact absurd h hcontra
    · intro p hp
      have hres : ".." ∉ resolveName base name := by
        unfold resolveName
        by_cases habs : name.data.head? = some '/'
        · simp only [if_pos habs]; exact normAbs_not_dotdot _
        · simp only [if_neg habs]; exact normAbs_not_dotdot _
      have hnorm : normAbs (resolveName base name) = resolveName base name := by
        unfold normAbs
        rw [normAbs_go_no_dotdot_eq _ [] hres, List.nil_append]
      simp only [hnorm] at hp
      have hpe : p = resolveName base name := by
        injection hp with h'
        exact h'.symm
      subst hpe
      exact ⟨rfl, h, hres, hnorm⟩
  · simp only [if_neg h]
    constructor
    · constructor
      · intro _; exact h
      · intro _; trivial
    · intro p hp
      exact absurd hp (by simp)

theorem squashfs_path_containment_witness :
    (SquashFSStorage.path ["mnt", "squashfs", "img.squashfs"] "a/../b" =
        .ok ["mnt", "squashfs", "img.squashfs", "b"]) ∧
    ["mnt", "squashfs", "img.squashfs"] <+:
      ["mnt", "squashfs", "img.squashfs", "b"] ∧
    ".." ∉ ["mnt", "squashfs", "img.squashfs", "b"] ∧
    (SquashFSStorage.path ["mnt", "squashfs", "img.squashfs"] "../../etc/passwd" =
        .error ()) := by
  have h := (squashfs_path_containment ["mnt", "squashfs", "img.squashfs"]
    "a/../b").2 ["mnt", "squashfs", "img.squashfs", "b"] rfl
  have h2 := (squashfs_path_containment ["mnt", "squashfs", "img.squashfs"]
    "../../etc/passwd").1
  exact ⟨rfl, h.2.1, h.2.2.1, h2.mpr (by decide)⟩

/-! ### MountManager: `SquashFSStorage._mounted` / `_mount` (claims C5, C9)

The observable world is the output of the external `mount` listing plus
counters for the two external effects `_mount` can perform.  The effect
of a successful mount invocation on the listing is abstracted as a
function `eff`. -/

structure MountWorld where
  mountOutput : String
  mkdirCalls : Nat
  mountCalls : Nat
deriving DecidableEq, Repr

/-- Embeds `SquashFSStorage._mounted`: `mount_list.find(self.location) > -1`,
true iff the location occurs as a substring anywhere in the output of
the external `mount` listing. -/
def SquashFSStorage.mounted (location : String) (w : MountWorld) : Bool :=
  strContains w.mountOutput location

/-- Embeds `SquashFSStorage._mount`: a no-op when `_mounted`; otherwise creates
the mount-point directory and invokes the mount utility, whose effect on
the mount listing is `eff`. -/
def SquashFSStorage.mount (location : String) (eff : String → String)
    (w : MountWorld) : MountWorld :=
  if SquashFSStorage.mounted location w then w
  else
    { mountOutput := eff w.mountOutput,
      mkdirCalls := w.mkdirCalls + 1,
      mountCalls := w.mountCalls + 1 }

/-- One line of `mount` output per mounted location, in the style of the
Linux mount table listing. -/
def renderMountTable (tbl : List String) : String :=
  String.join (tbl.map (fun l => "dev on " ++ l ++ " type squashfs\n"))

theorem mount_of_mounted (location : String) (eff : String → String)
    (w : MountWorld) (h : SquashFSStorage.mounted location w = true) :
    SquashFSStorage.mount location eff w = w := by
  unfold SquashFSStorage.mount
  rw [if_pos h]

theorem mount_of_not_mounted (location : String) (eff : String → String)
    (w : MountWorld) (h : ¬ SquashFSStorage.mounted location w = true) :
    SquashFSStorage.mount location eff w =
      { mountOutput := eff w.mountOutput,
        mkdirCalls := w.mkdirCalls + 1,
        mountCalls := w.mountCalls + 1 } := by
  unfold SquashFSStorage.mount
  rw [if_neg h]

/-- C5: when the first mount invocation succeeds (its effect makes the
location appear in the mount listing), calling `_mount` twice performs
the external mount invocation and the directory creation at most once,
and the second call is a no-op. -/
theorem squash_mount_idempotent (location : String) (eff : String → String)
    (w : MountWorld)
    (hsucc : strContains (eff w.mountOutput) location = true) :
    SquashFSStorage.mount location eff (SquashFSStorage.mount location eff w) =
      SquashFSStorage.mount location eff w ∧
    (SquashFSStorage.mount location eff
        (SquashFSStorage.mount location eff w)).mountCalls ≤ w.mountCalls + 1 ∧
    (SquashFSStorage.mount location eff
        (SquashFSStorage.mount location eff w)).mkdirCalls ≤ w.mkdirCalls + 1 := by
  by_cases h : SquashFSStorage.mounted location w = true
  · have h0 := mount_of_mounted location eff w h
    rw [h0, h0]
    exact ⟨rfl, Nat.le_succ _, Nat.le_succ _⟩
  · have h1 := mount_of_not_mounted location eff w h
    have h2 : SquashFSStorage.mounted location
        (SquashFSStorage.mount location eff w) = true := by
      rw [h1]
      exact hsucc
    have h3 := mount_of_mounted location eff
      (SquashFSStorage.mount location eff w) h2
    rw [h3, h1]
    exact ⟨rfl, Nat.le_refl _, Nat.le_refl _⟩

theorem squash_mount_idempotent_witness :
    strContains
      ((fun out => out ++ "dev on /mnt/squashfs/img.squashfs type squashfs\n")
        (MountWorld.mk "" 0 0).mountOutput) "/mnt/squashfs/img.squashfs" = true ∧
    SquashFSStorage.mount "/mnt/squashfs/img.squashfs"
        (fun out => out ++ "dev on /mnt/squashfs/img.squashfs type squashfs\n")
        (SquashFSStorage.mount "/mnt/squashfs/img.squashfs"
          (fun out => out ++ "dev on /mnt/squashfs/img.squashfs type squashfs\n")
          (MountWorld.mk "" 0 0)) =
      SquashFSStorage.mount "/mnt/squashfs/img.squashfs"
        (fun out => out ++ "dev on /mnt/squashfs/img.squashfs type squashfs\n")
        (MountWorld.mk "" 0 0) := by
  have hsucc : strContains
      ((fun out => out ++ "dev on /mnt/squashfs/img.squashfs type squashfs\n")
        (MountWorld.mk "" 0 0).mountOutput) "/mnt/squashfs/img.squashfs" = true := by
    decide
  exact ⟨hsucc,
    (squash_mount_idempotent "/mnt/squashfs/img.squashfs"
      (fun out => out ++ "dev on /mnt/squashfs/img.squashfs type squashfs\n")
      (MountWorld.mk "" 0 0) hsucc).1⟩

/-- C9: `_mounted` is exactly the substring test against the `mount`
listing, so an archive whose mount location is not itself mounted but is
a substring of some other mounted path is treated as already mounted:
`_mount` returns without any directory creation or mount invocation. -/
theorem mounted_substring_confusion (location : String) (tbl : List String)
    (eff : String → String) (w : MountWorld)
    (hout : w.mountOutput = renderMountTable tbl)
    (_hnot : location ∉ tbl)
    (hsub : strContains (renderMountTable tbl) location = true) :
    (SquashFSStorage.mounted location w = true ↔
      location.data <:+: w.mountOutput.data) ∧
    SquashFSStorage.mount location eff w = w := by
  have hm : SquashFSStorage.mounted location w = true := by
    unfold SquashFSStorage.mounted
    rw [hout]
    exact hsub
  constructor
  · unfold SquashFSStorage.mounted strContains
    exact decide_eq_true_iff
  · exact mount_of_mounted location eff w hm

theorem mounted_substring_confusion_witness :
    "/mnt/squashfs/ab" ∉ ["/mnt/squashfs/abc.squashfs"] ∧
    SquashFSStorage.mount "/mnt/squashfs/ab" (fun out => out)
        (MountWorld.mk (renderMountTable ["/mnt/squashfs/abc.squashfs"]) 0 0) =
      MountWorld.mk (renderMountTable ["/mnt/squashfs/abc.squashfs"]) 0 0 := by
  have h := mounted_substring_confusion "/mnt/squashfs/ab"
    ["/mnt/squashfs/abc.squashfs"] (fun out => out)
    (MountWorld.mk (renderMountTable ["/mnt/squashfs/abc.squashfs"]) 0 0)
    rfl (by decide) (by decide)
  exact ⟨by decide, h.2⟩

/-! ### TreeWalker: `dj_storage_walk` (claims C6, C7)

The storage listing contract is abstracted as a finite tree: each node
carries whether its listing succeeds (`ok`), its subdirectories with
their subtrees, and its plain files.  A generator run becomes the list
of its `yield` events, with an extra `errCb` event recording each
invocation of the error callback; `onerror : Bool` models whether a
callback was supplied. -/

inductive FSTree where
  | node (ok : Bool) (dirs : List (String × FSTree)) (files : List String)

/-- Whether listing the top directory of this tree succeeds. -/
def FSTree.ok : FSTree → Bool
  | .node ok _ _ => ok

inductive WalkEvent where
  | yield (top : String) (dirnames filenames : List String)
  | errCb (top : String)
deriving DecidableEq, Repr

/-- The directory a walk event concerns. -/
def WalkEvent.top : WalkEvent → String
  | .yield t _ _ => t
  | .errCb t => t

def WalkEvent.isErrCb : WalkEvent → Bool
  | .yield _ _ _ => false
  | .errCb _ => true

mutual
/-- Embeds `dj_storage_walk`: on a listing error, invokes the callback (when
supplied) and stops; otherwise optionally filters dotfiles, yields
top-down or bottom-up, and recurses into the subdirectories.  Faithful
to the source, the recursive call passes only `(dj_storage, new_top)`,
so `topdown`, `onerror` and `ignore_dotfiles` all revert to their
defaults `(true, None, true)` below the top level. -/
def dj_storage_walk (t : FSTree) (top : String)
    (topdown onerror ignore_dotfiles : Bool) : List WalkEvent :=
  match t with
  | .node ok dirs files =>
    if ok then
      let dirnames := if ignore_dotfiles
        then (dirs.map Prod.fst).filter (fun d => !startsDot d)
        else dirs.map Prod.fst
      let filenames := if ignore_dotfiles
        then files.filter (fun f => !startsDot f)
        else files
      (if topdown then [WalkEvent.yield top dirnames filenames] else [])
        ++ walkSubdirs dirs top ignore_dotfiles
        ++ (if topdown then [] else [WalkEvent.yield top dirnames filenames])
    else
      if onerror then [WalkEvent.errCb top] else []

/-- The `for dirname in dirnames` loop of `dj_storage_walk`: recurses
into each subdirectory surviving the dotfile filter, in listing order,
with the walk arguments reset to their defaults. -/
def walkSubdirs (dirs : List (String × FSTree)) (top : String)
    (ignore_dotfiles : Bool) : List WalkEvent :=
  match dirs with
  | [] => []
  | (d, sub) :: rest =>
    (if ignore_dotfiles && startsDot d then []
     else dj_storage_walk sub (pjoin top d) true false true)
      ++ walkSubdirs rest top ignore_dotfiles
end

/-- A yield event whose directory and file names are all dot-free. -/
def dotFreeEvent : WalkEvent → Prop
  | .yield _ dns fns =>
    (∀ d ∈ dns, startsDot d = false) ∧ (∀ f ∈ fns, startsDot f = false)
  | .errCb _ => True

/-- Holds when `b` is reached from `a` by descending only through directories whose
names do not start with a dot. -/
inductive NonDotDescent : String → String → Prop
  | refl (p : String) : NonDotDescent p p
  | step (a b d : String) : NonDotDescent a b → startsDot d = false →
      NonDotDescent a (pjoin b d)

theorem NonDotDescent.trans {a b c : String}
    (h1 : NonDotDescent a b) (h2 : NonDotDescent b c) : NonDotDescent a c := by
  induction h2 with
  | refl => exact h1
  | step _ d _ hd ih => exact NonDotDescent.step _ _ d ih hd

mutual
theorem walk_true_dotfree (t : FSTree) (top : String) (td oe : Bool) :
    ∀ e ∈ dj_storage_walk t top td oe true,
      dotFreeEvent e ∧ NonDotDescent top e.top := by
  match t with
  | .node ok dirs files =>
    cases ok with
    | false =>
      intro e he
      simp only [dj_storage_walk, Bool.false_eq_true, if_false] at he
      cases oe with
      | false => simp at he
      | true =>
        simp only [if_true, List.mem_singleton] at he
        subst he
        exact ⟨trivial, NonDotDescent.refl top⟩
    | true =>
      intro e he
      simp only [dj_storage_walk, if_true, List.mem_append] at he
      rcases he with (hy | hc) | hy'
      · rcases td with _ | _
        · simp at hy
        · simp only [if_true, List.mem_singleton] at hy
          subst hy
          refine ⟨⟨?_, ?_⟩, NonDotDescent.refl top⟩
          · intro d hd
            simp only [List.mem_filter, Bool.not_eq_eq_eq_not, Bool.not_true] at hd
            exact hd.2
          · intro f hf
            simp only [List.mem_filter, Bool.not_eq_eq_eq_not, Bool.not_true] at hf
            exact hf.2
      · exact walkSubdirs_true_dotfree dirs top e hc
      · rcases td with _ | _
        · simp only [Bool.false_eq_true, if_false, if_true,
            List.mem_singleton] at hy'
          subst hy'
          refine ⟨⟨?_, ?_⟩, NonDotDescent.refl top⟩
          · intro d hd
            simp only [List.mem_filter, Bool.not_eq_eq_eq_not, Bool.not_true] at hd
            exact hd.2
          · intro f hf
            simp only [List.mem_filter, Bool.not_eq_eq_eq_not, Bool.not_true] at hf
            exact hf.2
        · simp at hy'

theorem walkSubdirs_true_dotfree (dirs : List (String × FSTree)) (top : String) :
    ∀ e ∈ walkSubdirs dirs top true,
      dotFreeEvent e ∧ NonDotDescent top e.top := by
  match dirs with
  | [] =>
    intro e he
    simp [walkSubdirs] at he
  | (d, sub) :: rest =>
    intro e he
    simp only [walkSubdirs, Bool.true_and, List.mem_append] at he
    rcases he with hl | hr
    · by_cases hd : startsDot d = true
      · rw [if_pos hd] at hl
        simp at hl
      · rw [if_neg hd] at hl
        have h := walk_true_dotfree sub (pjoin top d) true false e hl
        refine ⟨h.1, ?_⟩
        have hstep : NonDotDescent top (pjoin top d) :=
          NonDotDescent.step top top d (NonDotDescent.refl top)
            (Bool.not_eq_true _ ▸ hd)
        exact hstep.trans h.2
    · exact walkSubdirs_true_dotfree rest top e hr
end

theorem walkSubdirs_dotfree (dirs : List (String × FSTree)) (top : String)
    (ig : Bool) : ∀ e ∈ walkSubdirs dirs top ig, dotFreeEvent e := by
  induction dirs with
  | nil =>
    intro e he
    simp [walkSubdirs] at he
  | cons hd rest ih =>
    rcases hd with ⟨d, sub⟩
    intro e he
    simp only [walkSubdirs, List.mem_append] at he
    rcases he with hl | hr
    · by_cases hskip : (ig && startsDot d) = true
      · rw [if_pos hskip] at hl
        simp at hl
      · rw [if_neg hskip] at hl
        exact (walk_true_dotfree sub (pjoin top d) true false e hl).1
    · exact ih e hr

mutual
theorem walk_errCb_eq (t : FSTree) (top : String) (td oe ig : Bool) :
    (dj_storage_walk t top td oe ig).filter WalkEvent.isErrCb =
      if t.ok = false ∧ oe = true then [WalkEvent.errCb top] else [] := by
  match t with
  | .node ok dirs files =>
    cases ok with
    | false =>
      cases oe with
      | false => simp [dj_storage_walk, FSTree.ok]
      | true => simp [dj_storage_walk, FSTree.ok, WalkEvent.isErrCb]
    | true =>
      have hsub := walkSubdirs_errCb_eq dirs top ig
      cases td with
      | false =>
        simp only [dj_storage_walk, FSTree.ok, if_true, Bool.false_eq_true,
          if_false, List.nil_append, List.filter_append, hsub,
          List.append_nil]
        simp [WalkEvent.isErrCb]
      | true =>
        simp only [dj_storage_walk, FSTree.ok, if_true, List.filter_append,
          hsub, List.append_nil]
        simp [WalkEvent.isErrCb]

theorem walkSubdirs_errCb_eq (dirs : List (String × FSTree)) (top : String)
    (ig : Bool) :
    (walkSubdirs dirs top ig).filter WalkEvent.isErrCb = [] := by
  match dirs with
  | [] => simp [walkSubdirs]
  | (d, sub) :: rest =>
    have hrest := walkSubdirs_errCb_eq rest top ig
    simp only [walkSubdirs, List.filter_append, hrest, List.append_nil]
    by_cases hskip : (ig && startsDot d) = true
    · rw [if_pos hskip]
      rfl
    · rw [if_neg hskip]
      have h := walk_errCb_eq sub (pjoin top d) true false true
      rw [h]
      simp
end

theorem walkSubdirs_append (pre post : List (String × FSTree)) (top : String)
    (ig : Bool) :
    walkSubdirs (pre ++ post) top ig =
      walkSubdirs pre top ig ++ walkSubdirs post top ig := by
  induction pre with
  | nil => simp [walkSubdirs]
  | cons hd rest ih =>
    rcases hd with ⟨d, sub⟩
    simp only [List.cons_append, walkSubdirs, List.append_eq, ih,
      List.append_assoc]

theorem walk_unlistable_silent (bdirs : List (String × FSTree))
    (bfiles : List String) (p : String) :
    dj_storage_walk (FSTree.node false bdirs bfiles) p true false true = [] := by
  simp [dj_storage_walk]

/-- C6 (counterexample to the claim as stated): in a tree whose
subdirectory `sub` holds the dotfile `.hidden`, walking with
`ignore_dotfiles = false` never yields `.hidden`: the recursive call
into `sub` reverts `ignore_dotfiles` to its default `true`, so the
claim that every dotfile appears at every level is false. -/
theorem walk_dotfiles_cex :
    dj_storage_walk
        (FSTree.node true [("sub", FSTree.node true [] [".hidden"])] [])
        "." true false false =
      [WalkEvent.yield "." ["sub"] [], WalkEvent.yield "./sub" [] []] ∧
    WalkEvent.yield "./sub" [] [".hidden"] ∉
      dj_storage_walk
        (FSTree.node true [("sub", FSTree.node true [] [".hidden"])] [])
        "." true false false := by
  decide

/-- C6 (amended): with `ignore_dotfiles = true` no yielded directory or
file name starts with a dot and every yielded directory is reached by
descending only through non-dot directories; with `ignore_dotfiles =
false` only the top directory's own listing keeps its dotfiles — every
event below the top level is dot-free, because the recursive call
reverts `ignore_dotfiles` to its default `true`. -/
theorem walk_dotfiles_amended (t : FSTree) (top : String) (td oe : Bool) :
    (∀ e ∈ dj_storage_walk t top td oe true,
        dotFreeEvent e ∧ NonDotDescent top e.top) ∧
    (∀ e ∈ dj_storage_walk t top td oe false,
        e.top = top ∨ dotFreeEvent e) := by
  refine ⟨walk_true_dotfree t top td oe, ?_⟩
  match t with
  | .node ok dirs files =>
    cases ok with
    | false =>
      intro e he
      simp only [dj_storage_walk, Bool.false_eq_true, if_false] at he
      cases oe with
      | false => simp at he
      | true =>
        simp only [if_true, List.mem_singleton] at he
        subst he
        exact Or.inl rfl
    | true =>
      intro e he
      simp only [dj_storage_walk, if_true, List.mem_append] at he
      rcases he with (hy | hc) | hy'
      · rcases td with _ | _
        · simp at hy
        · simp only [if_true, List.mem_singleton] at hy
          subst hy
          exact Or.inl rfl
      · exact Or.inr (walkSubdirs_dotfree dirs top false e hc)
      · rcases td with _ | _
        · simp only [Bool.false_eq_true, if_false, if_true,
            List.mem_singleton] at hy'
          subst hy'
          exact Or.inl rfl
        · simp at hy'

theorem walk_dotfiles_amended_witness :
    (WalkEvent.yield "./sub" [] ["x.txt"] ∈
      dj_storage_walk
        (FSTree.node true [("sub", FSTree.node true [] ["x.txt", ".skip"])]
          [".top"]) "." true false true) ∧
    dotFreeEvent (WalkEvent.yield "./sub" [] ["x.txt"]) ∧
    NonDotDescent "." (WalkEvent.yield "./sub" [] ["x.txt"]).top := by
  have h := (walk_dotfiles_amended
      (FSTree.node true [("sub", FSTree.node true [] ["x.txt", ".skip"])]
        [".top"]) "." true false).1
    (WalkEvent.yield "./sub" [] ["x.txt"]) (by decide)
  exact ⟨by decide, h.1, h.2⟩

/-- C7 (counterexample to the claim as stated): a tree whose
subdirectory `bad` fails to list, walked with a callback supplied
(`onerror = true`): the claim demands exactly one callback invocation
for that failure, but the recursive call into `bad` passes
`onerror = None`, so the walk produces no `errCb` event at all (while
sibling results are still yielded). -/
theorem walk_onerror_cex :
    dj_storage_walk
        (FSTree.node true [("bad", FSTree.node false [] []),
          ("good", FSTree.node true [] ["s.txt"])] ["f.txt"])
        "." true true true =
      [WalkEvent.yield "." ["bad", "good"] ["f.txt"],
       WalkEvent.yield "./good" [] ["s.txt"]] ∧
    (dj_storage_walk
        (FSTree.node true [("bad", FSTree.node false [] []),
          ("good", FSTree.node true [] ["s.txt"])] ["f.txt"])
        "." true true true).filter WalkEvent.isErrCb = [] := by
  decide

/-- C7 (amended): the error callback is invoked exactly once when the
top directory of the original call itself fails to list and a callback
was supplied, and never otherwise — failures in subdirectories reached
by recursion are swallowed silently because the recursive call passes
`onerror = None`; the failing branch is abandoned without raising and
sibling branches are traversed unaffected. -/
theorem walk_onerror_amended :
    (∀ (t : FSTree) (top : String) (td oe ig : Bool),
        (dj_storage_walk t top td oe ig).filter WalkEvent.isErrCb =
          if t.ok = false ∧ oe = true then [WalkEvent.errCb top] else []) ∧
    (∀ (pre post : List (String × FSTree)) (top : String) (ig : Bool)
        (d : String) (bdirs : List (String × FSTree))
        (bfiles : List String),
        walkSubdirs (pre ++ (d, FSTree.node false bdirs bfiles) :: post)
            top ig =
          walkSubdirs pre top ig ++ walkSubdirs post top ig) := by
  refine ⟨walk_errCb_eq, ?_⟩
  intro pre post top ig d bdirs bfiles
  rw [walkSubdirs_append]
  congr 1
  simp only [walkSubdirs]
  by_cases hskip : (ig && startsDot d) = true
  · rw [if_pos hskip]
    simp
  · rw [if_neg hskip, walk_unlistable_silent]
    simp

/-! ### TaskRunner: `parse_squashfs_file` (claim C2)

The per-file parse unit is modelled by its observable effect: either
the exception it raises, or a trace of the persisted status parameter
(the sequence of values written by `status.save()`), whether the
parser entry point was invoked, and the final in-database status
value.  The parser either returns or raises (`ParseOutcome`).  The
unit's first statement is a catalog lookup of the squashfs DataFile
row, so that lookup is part of the model. -/

inductive ParseOutcome where
  | success
  | failure
deriving DecidableEq, Repr

structure ParseTrace where
  persisted : List String
  parserInvoked : Bool
  finalStatus : String
deriving DecidableEq, Repr

/-- How the file id is handed to the Django manager lookup:
positionally, as `objects.get(squashfs_file_id)` — which is what the
source writes — or as the keyword filter `objects.get(id=...)`. -/
inductive DjangoArg where
  | pos (id : Nat)
  | kw (id : Nat)
deriving DecidableEq, Repr

/-- Modelled from the external Django manager method
`DataFile.objects.get` (Django is not part of this repository):
positional arguments must be Q filter objects, so a bare integer id
passed positionally fails with `TypeError` while the filter expression
is unpacked, before any query runs; the keyword form returns the row
with that id, or raises `DoesNotExist`. -/
def datafile_objects_get (table : List Nat) (arg : DjangoArg) :
    Except String Nat :=
  match arg with
  | DjangoArg.pos _ => Except.error "TypeError"
  | DjangoArg.kw id =>
    if table.contains id then Except.ok id
    else Except.error "DoesNotExist"

/-- Embeds `parse_squashfs_file`: its first statement looks the
DataFile row up, passing `squashfs_file_id` positionally exactly as
the source does, and an exception there propagates with nothing
persisted and no parser invocation.  Only on a successful lookup does
the rest run: return untouched when the stored status is `complete` or
`running`; otherwise write and save `running`, invoke the parser, set
`complete` on success or `parse failed` on any exception, and save the
final value in a `finally` block. -/
def parse_squashfs_file (table : List Nat) (squashfs_file_id : Nat)
    (initialStatus : String) (outcome : ParseOutcome) :
    Except String ParseTrace :=
  match datafile_objects_get table (DjangoArg.pos squashfs_file_id) with
  | Except.error e => Except.error e
  | Except.ok _ =>
    if initialStatus = "complete" ∨ initialStatus = "running" then
      Except.ok (ParseTrace.mk [] false initialStatus)
    else
      match outcome with
      | ParseOutcome.success =>
        Except.ok (ParseTrace.mk ["running", "complete"] true "complete")
      | ParseOutcome.failure =>
        Except.ok
          (ParseTrace.mk ["running", "parse failed"] true "parse failed")

/-- C2: the claimed status state machine never executes.  The unit's
first statement, `DataFile.objects.get(squashfs_file_id)`, passes the
id positionally instead of as `id=...`, so the lookup raises
`TypeError` on every invocation — for a file that exists, whatever the
stored status and whatever the parser would do — before the status is
ever read: no status value is persisted and the parser is never
invoked.  The keyword form the code clearly intended succeeds on the
same catalog. -/
theorem parse_squashfs_get_typeerror :
    parse_squashfs_file [1] 1 "unparsed" ParseOutcome.success =
      Except.error "TypeError" ∧
    parse_squashfs_file [1] 1 "unparsed" ParseOutcome.failure =
      Except.error "TypeError" ∧
    parse_squashfs_file [1] 1 "complete" ParseOutcome.failure =
      Except.error "TypeError" ∧
    datafile_objects_get [1] (DjangoArg.kw 1) = Except.ok 1 := by
  exact ⟨rfl, rfl, rfl, rfl⟩

/-! ### MatchEngine and IngestionOrchestrator:
`squash_parse_datafile` / `squashfs_match_experiment` (claims C1, C3)

The catalog rows the pipeline reads and writes become explicit lists.
The fixed experiment of a run is represented by a Boolean `inExp` on
each row (whether the Django `experiments=exp` / `datafile__dataset__
experiments=exp` join matches it); the storage boxes are identified by
numbers.  Django's autoincrement primary keys become the `nextId`
counter; saving a new row appends it and bumps the counter. -/

/-- A DataFileObject row: a file-location binding a catalog file to a
storage box under a URI. -/
structure DFO where
  datafile : Nat
  storage_box : Nat
  uri : String
  inExp : Bool
deriving DecidableEq, Repr

/-- A Dataset row (with `boxes` its `storage_boxes` many-to-many). -/
structure SDataset where
  id : Nat
  description : String
  inExp : Bool
  boxes : List Nat
deriving DecidableEq, Repr

/-- A DataFile row, with the attribute dictionary built at creation. -/
structure SDataFile where
  id : Nat
  dataset : Nat
  filename : String
  directory : String
  size : Nat
  created_time : Nat
  modification_time : Nat
  mimetype : String
  md5sum : String
  sha512sum : String
deriving DecidableEq, Repr

structure Catalog where
  dfos : List DFO
  datasets : List SDataset
  datafiles : List SDataFile
  nextId : Nat
deriving DecidableEq, Repr

/-- The storage facade metadata consulted when a new file is registered
(`inst.size`, checksums and MIME sniffing of `inst.open`, timestamps). -/
structure Inst where
  size : String → Nat
  created_time : String → Nat
  modified_time : String → Nat
  mimetype : String → String
  md5 : String → String
  sha512 : String → String

/-- The tier-1 queryset: locations of the experiment's files whose URI
ends with the discovered path, excluding this storage box
(`exp_q, path_part_match_q, ~s_box_q`). -/
def tier1 (sbox : Nat) (filepath : String) (c : Catalog) : List DFO :=
  c.dfos.filter (fun d =>
    d.inExp && strEndsWith d.uri filepath && !(d.storage_box == sbox))

/-- The tier-2 queryset: locations of the experiment's files bound to
this storage box with an exact URI match
(`exp_q, path_exact_match_q, s_box_q`). -/
def tier2 (sbox : Nat) (filepath : String) (c : Catalog) : List DFO :=
  c.dfos.filter (fun d =>
    d.inExp && d.uri == filepath && d.storage_box == sbox)

/-- The `df_dict` attribute dictionary of the new DataFile created on
the new-file path. -/
def mkNewDataFile (inst : Inst) (dsid : Nat) (directory filename
    filepath : String) (id : Nat) : SDataFile :=
  { id := id, dataset := dsid, filename := filename, directory := directory,
    size := inst.size filepath,
    created_time := inst.created_time filepath,
    modification_time := inst.modified_time filepath,
    mimetype := inst.mimetype filepath,
    md5sum := inst.md5 filepath,
    sha512sum := inst.sha512 filepath }

/-- The result of `squash_parse_datafile`: a DataFile (the tier-1 match
or a newly created file — the caller then adds a location for it), or
the already-satisfied DataFileObject of the tier-2 exact match. -/
inductive ParseResult where
  | file (datafileId : Nat)
  | dfo (d : DFO)
deriving DecidableEq, Repr

/-- Embeds `squash_parse_datafile`: delegates to the discipline-specific parser
when one is configured; otherwise tier 1 (cross-location suffix match
excluding this box, exactly one hit returns that location's datafile),
then tier 2 (exact URI match on this box, exactly one hit returns the
location itself), then the new-file path: find-or-create the
`squashfs-files` dataset scoped to the experiment and box, compute the
file attributes through the facade, and save a new DataFile. -/
def squash_parse_datafile
    (pmod : Option (String → String → String → Catalog →
      ParseResult × Catalog))
    (inst : Inst) (sbox : Nat) (directory filename filepath : String)
    (c : Catalog) : ParseResult × Catalog :=
  match pmod with
  | some pf => pf directory filename filepath c
  | none =>
    match tier1 sbox filepath c with
    | [d] => (ParseResult.file d.datafile, c)
    | _ =>
      match tier2 sbox filepath c with
      | [d] => (ParseResult.dfo d, c)
      | _ =>
        match c.datasets.filter (fun ds =>
          ds.inExp && ds.description == "squashfs-files" &&
            ds.boxes.contains sbox) with
        | ds :: _ =>
          (ParseResult.file c.nextId,
            { c with
              datafiles := c.datafiles ++
                [mkNewDataFile inst ds.id directory filename filepath
                  c.nextId],
              nextId := c.nextId + 1 })
        | [] =>
          let ds : SDataset :=
            { id := c.nextId, description := "squashfs-files",
              inExp := true, boxes := [sbox] }
          (ParseResult.file (c.nextId + 1),
            { c with
              datasets := c.datasets ++ [ds],
              datafiles := c.datafiles ++
                [mkNewDataFile inst ds.id directory filename filepath
                  (c.nextId + 1)],
              nextId := c.nextId + 2 })

/-- Embeds `DataFileObject.objects.get_or_create(datafile=…, storage_box=…,
uri=…)`: appends a new location unless one with these three keys
exists.  A location created here is for a file of a dataset of the
experiment, so it carries `inExp := true`. -/
def dfo_get_or_create (dfid sbox : Nat) (uri : String) (c : Catalog) :
    Catalog :=
  if c.dfos.any (fun d =>
      d.datafile == dfid && d.storage_box == sbox && d.uri == uri) then c
  else
    { c with dfos := c.dfos ++
        [{ datafile := dfid, storage_box := sbox, uri := uri,
           inExp := true }] }

/-- The body of the orchestrator's inner loop: parse one discovered
file and, when the result is a DataFile, find-or-create its location
on this box. -/
def process_file
    (pmod : Option (String → String → String → Catalog →
      ParseResult × Catalog))
    (inst : Inst) (sbox : Nat) (basedir filename : String) (c : Catalog) :
    Catalog :=
  let filepath := pjoin basedir filename
  match squash_parse_datafile pmod inst sbox basedir filename filepath c with
  | (ParseResult.file dfid, c1) => dfo_get_or_create dfid sbox filepath c1
  | (ParseResult.dfo _, c1) => c1

/-- The (directory, filename) pairs discovered by the orchestrator's
walk, in traversal order: `dj_storage_walk(inst)` with every argument
left at its default. -/
def discoveredFiles (t : FSTree) : List (String × String) :=
  (dj_storage_walk t "." true false true).flatMap (fun e =>
    match e with
    | WalkEvent.yield top _ fns => fns.map (fun f => (top, f))
    | WalkEvent.errCb _ => [])

/-- The walked file paths, as joined by the orchestrator. -/
def discoveredPaths (t : FSTree) : List String :=
  (discoveredFiles t).map (fun q => pjoin q.1 q.2)

/-- Embeds `squashfs_match_experiment`: walk the storage instance and process
every discovered file.  Faithful to the source, its `ignore_dotfiles`
parameter is accepted but never used — the walk runs with defaults. -/
def squashfs_match_experiment
    (pmod : Option (String → String → String → Catalog →
      ParseResult × Catalog))
    (inst : Inst) (sbox : Nat) (t : FSTree) (_ignore_dotfiles : Bool)
    (c : Catalog) : Catalog :=
  (discoveredFiles t).foldl
    (fun acc q => process_file pmod inst sbox q.1 q.2 acc) c

/-- C1 (counterexample to the claim as stated): catalog with exactly one
location bound to box 0 (X) at `uri = "a/b.txt"` and exactly one
location under box 1 (Y) whose URI ends with `a/b.txt`.  The claim says
the walk at `a/b.txt` returns the tier-2 exact match (the
already-satisfied location bound to X); the code checks tier 1 first
and returns the Y location's datafile instead. -/
theorem squash_parse_tier_order_cex :
    (squash_parse_datafile none
        (Inst.mk (fun _ => 0) (fun _ => 0) (fun _ => 0) (fun _ => "")
          (fun _ => "") (fun _ => ""))
        0 "a" "b.txt" "a/b.txt"
        (Catalog.mk
          [DFO.mk 1 0 "a/b.txt" true, DFO.mk 2 1 "x/a/b.txt" true]
          [] [] 3)).1 =
      ParseResult.file 2 ∧
    (squash_parse_datafile none
        (Inst.mk (fun _ => 0) (fun _ => 0) (fun _ => 0) (fun _ => "")
          (fun _ => "") (fun _ => ""))
        0 "a" "b.txt" "a/b.txt"
        (Catalog.mk
          [DFO.mk 1 0 "a/b.txt" true, DFO.mk 2 1 "x/a/b.txt" true]
          [] [] 3)).1 ≠
      ParseResult.dfo (DFO.mk 1 0 "a/b.txt" true) := by
  constructor
  · rfl
  · decide

/-- C1 (amended): in the claim's scenario the tier-1 cross-location
query returns exactly the location under the other storage box, so
`squash_parse_datafile` returns that location's datafile (tier 1) —
not the exact-match file-location bound to this box, even though the
tier-2 query would also have exactly one hit — and it creates no new
catalog file, leaving the catalog unchanged. -/
theorem squash_parse_tier1_first (inst : Inst) (sbox : Nat)
    (directory filename filepath : String) (c : Catalog) (dY dX : DFO)
    (h1 : tier1 sbox filepath c = [dY])
    (_h2 : tier2 sbox filepath c = [dX]) :
    squash_parse_datafile none inst sbox directory filename filepath c =
      (ParseResult.file dY.datafile, c) ∧
    ∀ d : DFO, ParseResult.file dY.datafile ≠ ParseResult.dfo d := by
  constructor
  · unfold squash_parse_datafile
    rw [h1]
  · intro d hc
    exact ParseResult.noConfusion hc

theorem squash_parse_tier1_first_witness :
    tier1 0 "a/b.txt"
        (Catalog.mk
          [DFO.mk 1 0 "a/b.txt" true, DFO.mk 2 1 "x/a/b.txt" true]
          [] [] 3) = [DFO.mk 2 1 "x/a/b.txt" true] ∧
    squash_parse_datafile none
        (Inst.mk (fun _ => 1) (fun _ => 2) (fun _ => 3) (fun _ => "m")
          (fun _ => "h1") (fun _ => "h2"))
        0 "a" "b.txt" "a/b.txt"
        (Catalog.mk
          [DFO.mk 1 0 "a/b.txt" true, DFO.mk 2 1 "x/a/b.txt" true]
          [] [] 3) =
      (ParseResult.file 2,
        Catalog.mk
          [DFO.mk 1 0 "a/b.txt" true, DFO.mk 2 1 "x/a/b.txt" true]
          [] [] 3) := by
  have h := squash_parse_tier1_first
    (Inst.mk (fun _ => 1) (fun _ => 2) (fun _ => 3) (fun _ => "m")
      (fun _ => "h1") (fun _ => "h2"))
    0 "a" "b.txt" "a/b.txt"
    (Catalog.mk
      [DFO.mk 1 0 "a/b.txt" true, DFO.mk 2 1 "x/a/b.txt" true] [] [] 3)
    (DFO.mk 2 1 "x/a/b.txt" true) (DFO.mk 1 0 "a/b.txt" true)
    (by decide) (by decide)
  exact ⟨by decide, h.1⟩

theorem strEndsWith_refl (p : String) : strEndsWith p p = true := by
  unfold strEndsWith
  exact decide_eq_true (List.suffix_refl p.data)

theorem ne_of_strEndsWith_false {u p : String}
    (h : strEndsWith u p = false) : u ≠ p := by
  intro he
  subst he
  rw [strEndsWith_refl] at h
  exact Bool.noConfusion h

/-- A location untouched by the discovered path `p` on box `sbox`: it
either does not even suffix-match `p`, or it lives on this very box
under a different URI (so the tier-1 exclusion and the tier-2 exact
match both reject it). -/
def freshFor (sbox : Nat) (p : String) (d : DFO) : Prop :=
  strEndsWith d.uri p = false ∨ (d.storage_box = sbox ∧ d.uri ≠ p)

theorem freshFor_uri_ne {sbox : Nat} {p : String} {d : DFO}
    (h : freshFor sbox p d) : d.uri ≠ p := by
  rcases h with h | h
  · exact ne_of_strEndsWith_false h
  · exact h.2

theorem tier1_eq_nil {sbox : Nat} {p : String} {c : Catalog}
    (h : ∀ d ∈ c.dfos, freshFor sbox p d) : tier1 sbox p c = [] := by
  unfold tier1
  rw [List.filter_eq_nil_iff]
  intro d hd
  rcases h d hd with hend | ⟨hbox, _⟩
  · simp [hend]
  · simp [hbox]

theorem tier2_eq_nil {sbox : Nat} {p : String} {c : Catalog}
    (h : ∀ d ∈ c.dfos, freshFor sbox p d) : tier2 sbox p c = [] := by
  unfold tier2
  rw [List.filter_eq_nil_iff]
  intro d hd
  have hne : d.uri ≠ p := freshFor_uri_ne (h d hd)
  simp [hne]


theorem dfo_any_false (sbox dfid : Nat) (p : String) (c : Catalog)
    (h : ∀ d ∈ c.dfos, d.uri ≠ p) :
    (c.dfos.any (fun d =>
      d.datafile == dfid && d.storage_box == sbox && d.uri == p)) = false := by
  rw [List.any_eq_false]
  intro d hd
  simp [h d hd]

theorem dfo_get_or_create_new (dfid sbox : Nat) (p : String) (c : Catalog)
    (h : ∀ d ∈ c.dfos, d.uri ≠ p) :
    dfo_get_or_create dfid sbox p c =
      { c with dfos := c.dfos ++ [DFO.mk dfid sbox p true] } := by
  have hany := dfo_any_false sbox dfid p c h
  unfold dfo_get_or_create
  rw [hany]
  simp

theorem dfo_get_or_create_new_mk (dfid sbox : Nat) (p : String)
    (dfos : List DFO) (dsets : List SDataset) (dfs : List SDataFile)
    (nid : Nat) (h : ∀ d ∈ dfos, d.uri ≠ p) :
    dfo_get_or_create dfid sbox p (Catalog.mk dfos dsets dfs nid) =
      Catalog.mk (dfos ++ [DFO.mk dfid sbox p true]) dsets dfs nid :=
  dfo_get_or_create_new dfid sbox p (Catalog.mk dfos dsets dfs nid) h

theorem process_file_new (inst : Inst) (sbox : Nat) (dir fn : String)
    (c : Catalog)
    (h : ∀ d ∈ c.dfos, freshFor sbox (pjoin dir fn) d) :
    ∃ dfid dsid nid dsets,
      process_file none inst sbox dir fn c =
        Catalog.mk
          (c.dfos ++ [DFO.mk dfid sbox (pjoin dir fn) true])
          dsets
          (c.datafiles ++
            [mkNewDataFile inst dsid dir fn (pjoin dir fn) dfid])
          nid := by
  have ht1 := tier1_eq_nil h
  have ht2 := tier2_eq_nil h
  have hne : ∀ d ∈ c.dfos, d.uri ≠ pjoin dir fn :=
    fun d hd => freshFor_uri_ne (h d hd)
  rcases hds : c.datasets.filter (fun ds =>
      ds.inExp && ds.description == "squashfs-files" &&
        ds.boxes.contains sbox) with _ | ⟨ds, rest⟩
  · refine ⟨c.nextId + 1, c.nextId, c.nextId + 2,
      c.datasets ++ [SDataset.mk c.nextId "squashfs-files" true [sbox]], ?_⟩
    unfold process_file squash_parse_datafile
    simp only [ht1, ht2, hds]
    rw [dfo_get_or_create_new_mk (c.nextId + 1) sbox (pjoin dir fn) c.dfos
      _ _ _ hne]
  · refine ⟨c.nextId, ds.id, c.nextId + 1, c.datasets, ?_⟩
    unfold process_file squash_parse_datafile
    simp only [ht1, ht2, hds]
    rw [dfo_get_or_create_new_mk c.nextId sbox (pjoin dir fn) c.dfos
      _ _ _ hne]

/-- The orchestrator's loop over an explicit discovered-file list, with
no custom parser configured. -/
def runFiles (inst : Inst) (sbox : Nat) (L : List (String × String))
    (c : Catalog) : Catalog :=
  L.foldl (fun acc q => process_file none inst sbox q.1 q.2 acc) c

theorem runFiles_cons (inst : Inst) (sbox : Nat) (q : String × String)
    (L : List (String × String)) (c : Catalog) :
    runFiles inst sbox (q :: L) c =
      runFiles inst sbox L (process_file none inst sbox q.1 q.2 c) := rfl

theorem match_experiment_eq_runFiles (inst : Inst) (sbox : Nat)
    (t : FSTree) (ig : Bool) (c : Catalog) :
    squashfs_match_experiment none inst sbox t ig c =
      runFiles inst sbox (discoveredFiles t) c := rfl

theorem runFiles_new (inst : Inst) (sbox : Nat) :
    ∀ (L : List (String × String)) (c : Catalog),
      (L.map (fun q => pjoin q.1 q.2)).Nodup →
      (∀ d ∈ c.dfos, ∀ p ∈ L.map (fun q => pjoin q.1 q.2),
        freshFor sbox p d) →
      ∃ A B,
        (runFiles inst sbox L c).dfos = c.dfos ++ A ∧
        A.map DFO.uri = L.map (fun q => pjoin q.1 q.2) ∧
        (∀ d ∈ A, d.storage_box = sbox ∧ d.inExp = true) ∧
        (runFiles inst sbox L c).datafiles = c.datafiles ++ B ∧
        B.map (fun f => pjoin f.directory f.filename) =
          L.map (fun q => pjoin q.1 q.2) := by
  intro L
  induction L with
  | nil =>
    intro c _ _
    exact ⟨[], [], by simp [runFiles], by simp, by simp,
      by simp [runFiles], by simp⟩
  | cons q rest ih =>
    intro c hnd hfresh
    rw [List.map_cons] at hnd
    have hne_head : pjoin q.1 q.2 ∉ rest.map (fun r => pjoin r.1 r.2) :=
      (List.nodup_cons.mp hnd).1
    have hndrest := (List.nodup_cons.mp hnd).2
    obtain ⟨dfid, dsid, nid, dsets, hstep⟩ :=
      process_file_new inst sbox q.1 q.2 c
        (fun d hd => hfresh d hd (pjoin q.1 q.2) (by simp))
    have hfresh' : ∀ d ∈ (process_file none inst sbox q.1 q.2 c).dfos,
        ∀ p ∈ rest.map (fun r => pjoin r.1 r.2), freshFor sbox p d := by
      rw [hstep]
      intro d hd p hp
      rcases List.mem_append.mp hd with hold | hnew
      · exact hfresh d hold p (by simp only [List.map_cons]; right; exact hp)
      · rw [List.mem_singleton] at hnew
        subst hnew
        right
        refine ⟨rfl, fun hcon => hne_head ?_⟩
        have hpq : p = pjoin q.1 q.2 := by
          rw [← hcon]
        rw [← hpq]
        exact hp
    obtain ⟨A', B', h1, h2, h3, h4, h5⟩ :=
      ih (process_file none inst sbox q.1 q.2 c) hndrest hfresh'
    refine ⟨DFO.mk dfid sbox (pjoin q.1 q.2) true :: A',
      mkNewDataFile inst dsid q.1 q.2 (pjoin q.1 q.2) dfid :: B',
      ?_, ?_, ?_, ?_, ?_⟩
    · rw [runFiles_cons, h1, hstep]
      simp
    · simp only [List.map_cons, h2]
    · intro d hd
      rcases List.mem_cons.mp hd with rfl | hd'
      · exact ⟨rfl, rfl⟩
      · exact h3 d hd'
    · rw [runFiles_cons, h4, hstep]
      simp [mkNewDataFile]
    · simp only [List.map_cons, h5, mkNewDataFile]

theorem process_file_fixed (inst : Inst) (sbox : Nat) (dir fn : String)
    (c : Catalog) (dd : DFO)
    (ht1 : tier1 sbox (pjoin dir fn) c = [])
    (ht2 : tier2 sbox (pjoin dir fn) c = [dd]) :
    process_file none inst sbox dir fn c = c := by
  unfold process_file squash_parse_datafile
  simp only [ht1, ht2]

theorem runFiles_fixed (inst : Inst) (sbox : Nat)
    (L : List (String × String)) (c : Catalog)
    (h : ∀ q ∈ L, process_file none inst sbox q.1 q.2 c = c) :
    runFiles inst sbox L c = c := by
  induction L with
  | nil => rfl
  | cons q rest ih =>
    rw [runFiles_cons, h q (List.mem_cons_self q rest)]
    exact ih (fun r hr => h r (List.mem_cons_of_mem q hr))

/-- C3: running `squashfs_match_experiment` twice in succession over the
same unchanged archive, with no custom parser configured and starting
from a catalog holding no location for (not even a suffix match of) any
of the archive's discovered paths, ends with exactly one catalog file
and exactly one file-location record per discovered path, and the
second run leaves the catalog exactly as the first left it — no
duplicate file, dataset or file-location. -/
theorem squashfs_match_experiment_idempotent (inst : Inst) (sbox : Nat)
    (t : FSTree) (ig1 ig2 : Bool) (c c1 : Catalog)
    (hnd : (discoveredPaths t).Nodup)
    (hfresh : ∀ d ∈ c.dfos, ∀ p ∈ discoveredPaths t,
      strEndsWith d.uri p = false)
    (hc1 : c1 = squashfs_match_experiment none inst sbox t ig1 c) :
    squashfs_match_experiment none inst sbox t ig2 c1 = c1 ∧
    (∀ p ∈ discoveredPaths t,
      (c1.dfos.filter (fun d => d.uri == p)).length = 1) ∧
    (c1.datafiles.drop c.datafiles.length).map
      (fun f => pjoin f.directory f.filename) = discoveredPaths t := by
  unfold discoveredPaths at hnd hfresh ⊢
  have hc1' : c1 = runFiles inst sbox (discoveredFiles t) c :=
    hc1.trans (match_experiment_eq_runFiles inst sbox t ig1 c)
  have hfreshF : ∀ d ∈ c.dfos,
      ∀ p ∈ (discoveredFiles t).map (fun q => pjoin q.1 q.2),
        freshFor sbox p d :=
    fun d hd p hp => Or.inl (hfresh d hd p hp)
  obtain ⟨A, B, h1, h2, h3, h4, h5⟩ :=
    runFiles_new inst sbox (discoveredFiles t) c hnd hfreshF
  rw [← hc1'] at h1 h4
  have hAcount : ∀ p ∈ (discoveredFiles t).map (fun q => pjoin q.1 q.2),
      (A.filter (fun d => d.uri == p)).length = 1 := by
    intro p hp
    rw [← List.countP_eq_length_filter]
    have hcmp : A.countP (fun d => d.uri == p) =
        (A.map DFO.uri).countP (fun u => u == p) := by
      rw [List.countP_map]
      rfl
    rw [hcmp, h2]
    exact List.count_eq_one_of_mem hnd hp
  have holdnil : ∀ p ∈ (discoveredFiles t).map (fun q => pjoin q.1 q.2),
      c.dfos.filter (fun d => d.uri == p) = [] := by
    intro p hp
    rw [List.filter_eq_nil_iff]
    intro d hd
    have hne := ne_of_strEndsWith_false (hfresh d hd p hp)
    simp [hne]
  refine ⟨?_, ?_, ?_⟩
  · rw [match_experiment_eq_runFiles]
    apply runFiles_fixed
    intro q hq
    have hp : pjoin q.1 q.2 ∈
        (discoveredFiles t).map (fun r => pjoin r.1 r.2) :=
      List.mem_map_of_mem _ hq
    have ht1 : tier1 sbox (pjoin q.1 q.2) c1 = [] := by
      unfold tier1
      rw [h1, List.filter_append]
      have hold : c.dfos.filter (fun d =>
          d.inExp && strEndsWith d.uri (pjoin q.1 q.2) &&
            !(d.storage_box == sbox)) = [] := by
        rw [List.filter_eq_nil_iff]
        intro d hd
        simp [hfresh d hd _ hp]
      have hA : A.filter (fun d =>
          d.inExp && strEndsWith d.uri (pjoin q.1 q.2) &&
            !(d.storage_box == sbox)) = [] := by
        rw [List.filter_eq_nil_iff]
        intro d hd
        simp [(h3 d hd).1]
      rw [hold, hA]
      rfl
    have ht2len : (tier2 sbox (pjoin q.1 q.2) c1).length = 1 := by
      unfold tier2
      rw [h1, List.filter_append]
      have hold : c.dfos.filter (fun d =>
          d.inExp && d.uri == pjoin q.1 q.2 &&
            d.storage_box == sbox) = [] := by
        rw [List.filter_eq_nil_iff]
        intro d hd
        have hne := ne_of_strEndsWith_false (hfresh d hd _ hp)
        simp [hne]
      rw [hold, List.nil_append]
      have hcong : A.filter (fun d =>
          d.inExp && d.uri == pjoin q.1 q.2 && d.storage_box == sbox) =
            A.filter (fun d => d.uri == pjoin q.1 q.2) := by
        apply List.filter_congr
        intro d hd
        simp [(h3 d hd).1, (h3 d hd).2]
      rw [hcong]
      exact hAcount _ hp
    obtain ⟨dd, hdd⟩ := List.length_eq_one.mp ht2len
    exact process_file_fixed inst sbox q.1 q.2 c1 dd ht1 hdd
  · intro p hp
    rw [h1, List.filter_append, holdnil p hp, List.nil_append]
    exact hAcount p hp
  · rw [h4, List.drop_left]
    exact h5

theorem squashfs_match_experiment_idempotent_witness :
    (discoveredPaths (FSTree.node true [] ["f1.txt", "f2.txt"])).Nodup ∧
    squashfs_match_experiment none
        (Inst.mk (fun _ => 0) (fun _ => 0) (fun _ => 0) (fun _ => "")
          (fun _ => "") (fun _ => ""))
        0 (FSTree.node true [] ["f1.txt", "f2.txt"]) true
        (squashfs_match_experiment none
          (Inst.mk (fun _ => 0) (fun _ => 0) (fun _ => 0) (fun _ => "")
            (fun _ => "") (fun _ => ""))
          0 (FSTree.node true [] ["f1.txt", "f2.txt"]) true
          (Catalog.mk [] [] [] 0)) =
      squashfs_match_experiment none
        (Inst.mk (fun _ => 0) (fun _ => 0) (fun _ => 0) (fun _ => "")
          (fun _ => "") (fun _ => ""))
        0 (FSTree.node true [] ["f1.txt", "f2.txt"]) true
        (Catalog.mk [] [] [] 0) := by
  have h := squashfs_match_experiment_idempotent
    (Inst.mk (fun _ => 0) (fun _ => 0) (fun _ => 0) (fun _ => "")
      (fun _ => "") (fun _ => ""))
    0 (FSTree.node true [] ["f1.txt", "f2.txt"]) true true
    (Catalog.mk [] [] [] 0)
    (squashfs_match_experiment none
      (Inst.mk (fun _ => 0) (fun _ => 0) (fun _ => 0) (fun _ => "")
        (fun _ => "") (fun _ => ""))
      0 (FSTree.node true [] ["f1.txt", "f2.txt"]) true
      (Catalog.mk [] [] [] 0))
    (by decide) (by intro d hd p hp; simp at hd) rfl
  exact ⟨by decide, h.1⟩

/-! ### `SquashFSStorage.build_identifier` (claim C8)

Python is dynamically typed, so the function's possible return values —
`None`, a string, or (through the `os.path.join` misuse) a list of
strings — are modelled as one sum type. -/

inductive PyStrOrList where
  | none
  | str (s : String)
  | list (l : List String)
deriving DecidableEq, Repr

/-- Embeds `SquashFSStorage.build_identifier`, faithful to the source: `None`
for a location without URI; otherwise the archive name (with every
`.squashfs` occurrence removed by `str.replace`) is compared with the
URI's first segment.  On a match the source runs
`os.path.join(split_path[1:])` — passing the list as a single argument
with no `*` unpacking, so `os.path.join` returns that list object
unchanged and the branch produces a Python list, not a joined path
string. -/
def build_identifier (sq_filename : String) (uri : Option String) :
    PyStrOrList :=
  match uri with
  | Option.none => PyStrOrList.none
  | some u =>
    let sq_name := String.mk (replaceAll ".squashfs".data [] sq_filename.data)
    match (splitChar '/' u.data).map (fun l => String.mk l) with
    | [] => PyStrOrList.str u
    | head :: tail =>
      if head = sq_name then PyStrOrList.list tail else PyStrOrList.str u

/-- C8: at `sq_filename = "archive.squashfs"` and a location with
`uri = "archive/a/b.txt"`, the claim says `build_identifier` returns the
URI with the redundant leading segment stripped and the rest rejoined as
the path string `a/b.txt`; the code instead returns the unjoined segment
list (`os.path.join` applied to a single list argument returns the list),
while the `None` and pass-through branches behave as claimed. -/
theorem build_identifier_join_bug :
    build_identifier "archive.squashfs" (some "archive/a/b.txt") =
      PyStrOrList.list ["a", "b.txt"] ∧
    build_identifier "archive.squashfs" (some "archive/a/b.txt") ≠
      PyStrOrList.str "a/b.txt" ∧
    build_identifier "archive.squashfs" Option.none = PyStrOrList.none ∧
    build_identifier "archive.squashfs" (some "other/a/b.txt") =
      PyStrOrList.str "other/a/b.txt" := by
  refine ⟨rfl, ?_, rfl, rfl⟩
  decide

/-! ### `UpdateExperiment.mutate` (claim C10)

The experiment table becomes a list of rows; the authenticated
requesting user and the `created_by` owner are user ids.  `mutate`
returns the mutation payload (`none` models the bare `return None`) and
the table after any save. -/

structure ExperimentRec where
  id : Nat
  title : String
  created_by : Nat
deriving DecidableEq, Repr

/-- Embeds `UpdateExperiment.mutate`: looks the experiment up by primary key
(`DoesNotExist` / `MultipleObjectsReturned` model the `get` failure
modes), returns `None` without saving when the requesting user is not
`created_by`, and otherwise sets the title, saves, and returns the
experiment. -/
def UpdateExperiment.mutate (user eid : Nat) (title : String)
    (db : List ExperimentRec) :
    Except String (Option ExperimentRec × List ExperimentRec) :=
  match db.filter (fun e => e.id == eid) with
  | [] => Except.error "DoesNotExist"
  | [e] =>
    if e.created_by != user then Except.ok (Option.none, db)
    else
      Except.ok (some { e with title := title },
        db.map (fun x => if x.id == eid then { e with title := title } else x))
  | _ => Except.error "MultipleObjectsReturned"

/-- C10: for an existing experiment, a mutation by an authenticated user
who is not its creator returns no experiment and leaves the table — in
particular the experiment's title — unchanged; a mutation by the
creator updates exactly that experiment's title and saves it, leaving
every other row untouched. -/
theorem update_experiment_creator_only (user eid : Nat) (title : String)
    (db : List ExperimentRec) (e : ExperimentRec)
    (hget : db.filter (fun x => x.id == eid) = [e]) :
    (e.created_by ≠ user →
      UpdateExperiment.mutate user eid title db =
        Except.ok (Option.none, db)) ∧
    (e.created_by = user →
      UpdateExperiment.mutate user eid title db =
        Except.ok (some { e with title := title },
          db.map (fun x =>
            if x.id == eid then { e with title := title } else x)) ∧
      ∀ x ∈ db, x.id ≠ eid →
        (if x.id == eid then { e with title := title } else x) = x) := by
  constructor
  · intro hne
    unfold UpdateExperiment.mutate
    rw [hget]
    simp only [bne_iff_ne, ne_eq]
    rw [if_pos hne]
  · intro heq
    constructor
    · unfold UpdateExperiment.mutate
      rw [hget]
      simp only [bne_iff_ne, ne_eq]
      rw [if_neg (by simp [heq])]
    · intro x _ hxid
      rw [if_neg (by simp [hxid])]

theorem update_experiment_creator_only_witness :
    ([ExperimentRec.mk 1 "old" 7].filter (fun x => x.id == 1) =
      [ExperimentRec.mk 1 "old" 7]) ∧
    UpdateExperiment.mutate 9 1 "new" [ExperimentRec.mk 1 "old" 7] =
      Except.ok (Option.none, [ExperimentRec.mk 1 "old" 7]) ∧
    UpdateExperiment.mutate 7 1 "new" [ExperimentRec.mk 1 "old" 7] =
      Except.ok (some (ExperimentRec.mk 1 "new" 7),
        [ExperimentRec.mk 1 "new" 7]) := by
  have h1 := (update_experiment_creator_only 9 1 "new"
    [ExperimentRec.mk 1 "old" 7] (ExperimentRec.mk 1 "old" 7)
    (by decide)).1 (by decide)
  have h2 := (update_experiment_creator_only 7 1 "new"
    [ExperimentRec.mk 1 "old" 7] (ExperimentRec.mk 1 "old" 7)
    (by decide)).2 rfl
  exact ⟨by decide, h1, h2.1⟩
